import Mathlib

/-!
Verification of the CPU `Gather` kernel
(`onnxruntime/core/providers/cpu/tensor/gather.cc`).

The embedding models:
* shape arithmetic of `TensorShape` (`Size`, `SizeFromDimension`, `SizeToDimension`)
  with shapes as `List Nat`;
* `GatherBase::PrepareForCompute` (output-shape construction);
* `GatherCopyData` (index validation followed by the per-unit copy `lambda`),
  with the raw byte buffer as `Int → Nat` (byte value at a byte offset) and the
  string interpretation of the same region as `Int → String` (string value at an
  element slot);
* `Gather::Compute` (derivation of the strides and the `Tind` dispatch);
* the chunked worker handed to `ThreadPool::TryParallelFor`, including its
  narrowing of `ptrdiff_t` chunk bounds to `int`.

All scalar sizes (`M`, `N`, `block_size`, strides) are products of tensor
dimensions and are represented as `Nat`; index values, which may be negative,
are `Int`. The `int64_t` divisions `dst_offset / element_bytes` and
`src_offset / element_bytes` in the string branch act on non-negative operands
in every execution that reaches them, where C truncating division, Lean's
Euclidean `Int` division and `Nat` division all agree.
-/

namespace OnnxGather

/-- Product of a list of dimension sizes, mirroring `TensorShape::Size()`
(the empty shape is a scalar of size 1). -/
def sizeOfDims (dims : List Nat) : Nat := dims.prod

/-- Mirrors `TensorShape::SizeFromDimension k`: product of dimensions `[k, rank)`. -/
def sizeFromDimension (dims : List Nat) (k : Nat) : Nat := sizeOfDims (dims.drop k)

/-- Mirrors `TensorShape::SizeToDimension k`: product of dimensions `[0, k)`. -/
def sizeToDimension (dims : List Nat) (k : Nat) : Nat := sizeOfDims (dims.take k)

/-- Output shape built by `GatherBase::PrepareForCompute` (gather.cc:39-52):
one loop pushing `input_data_shape[i]` for `i < axis`, one loop pushing the
indices dimensions, and one loop pushing `input_data_shape[i]` for
`axis < i < rank`. `axis` is the already-normalized axis in `[0, rank)`. -/
def prepareOutputShape (input_data_shape indices_shape : List Nat) (axis : Nat) : List Nat :=
  ((List.range axis).map fun i => input_data_shape.getD i 0)
    ++ indices_shape
    ++ ((List.range (input_data_shape.length - (axis + 1))).map
        fun k => input_data_shape.getD (axis + 1 + k) 0)

/-- Status values surfaced by the kernel: `Status::OK()`,
`ORT_MAKE_STATUS(..., INVALID_ARGUMENT, ...)` carrying the offending index and
the inclusive valid range, and `ORT_MAKE_STATUS(..., NOT_IMPLEMENTED, ...)`. -/
inductive Status where
  | ok : Status
  | invalidArgument (idx lower upper : Int) : Status
  | notImplemented (msg : String) : Status

/-- Negative-index resolution of gather.cc:81:
`idx = idx < 0 ? idx + axis_dim_limit : idx`. -/
def resolveIdx (axis_dim_limit idx : Int) : Int :=
  if idx < 0 then idx + axis_dim_limit else idx

/-- Validation loop of gather.cc:65-72, started at position `i` with `rem`
positions left to scan: returns the first index value with
`idx < -axis_dim_limit || idx >= axis_dim_limit`, if any. The kernel calls it
with `i = 0`, `rem = N`. -/
def checkLoop (get_index : Nat → Int) (axis_dim_limit : Int) : Nat → Nat → Option Int
  | _, 0 => none
  | i, rem + 1 =>
    let idx := get_index i
    if idx < -axis_dim_limit ∨ axis_dim_limit ≤ idx then some idx
    else checkLoop get_index axis_dim_limit (i + 1) rem

/-- One gather unit: the `lambda` of gather.cc:74-91 applied to unit `index`.
The destination is the pair of the byte view and the string view of the
output buffer; the branch on `is_string_type` updates exactly one of them,
mirroring the `memcpy` of `block_size` bytes (fixed-width case) and the single
`std::string` assignment at element slot `dst_offset / element_bytes` from
element slot `src_offset / element_bytes` (string case). -/
def gatherLambda (is_string_type : Bool) (get_index : Nat → Int)
    (src_base : Int → Nat) (src_str : Int → String)
    (element_bytes block_size N data_batch_bytes gathered_batch_bytes : Nat)
    (axis_dim_limit : Int)
    (bufs : (Int → Nat) × (Int → String)) (index : Nat) : (Int → Nat) × (Int → String) :=
  let batch : Nat := index / N
  let i : Nat := index % N
  let src_offset_batch : Int := (batch * data_batch_bytes : Nat)
  let dst_offset_batch : Int := (batch * gathered_batch_bytes : Nat)
  let idx : Int := resolveIdx axis_dim_limit (get_index i)
  let src_offset : Int := src_offset_batch + idx * (block_size : Int)
  let dst_offset : Int := dst_offset_batch + ((i * block_size : Nat) : Int)
  if is_string_type then
    (bufs.1,
     fun a => if a = dst_offset / (element_bytes : Int)
              then src_str (src_offset / (element_bytes : Int)) else bufs.2 a)
  else
    (fun a => if dst_offset ≤ a ∧ a < dst_offset + (block_size : Int)
              then src_base (src_offset + (a - dst_offset)) else bufs.1 a,
     bufs.2)

/-- Mirrors `GatherCopyData` (gather.cc:57-101): the validation loop over the
`N` index positions runs first and an out-of-range index returns
`INVALID_ARGUMENT` (carrying the offending value and the inclusive range
`[-axis_dim_limit, axis_dim_limit - 1]`) with the destination untouched;
otherwise every gather unit in `[0, M*N)` executes. The
`ThreadPool::TryParallelFor` call is modelled by its sequential semantics over
the full unit range; chunking and the worker's `int` narrowing are modelled
separately by `runChunks` and `chunkWorkerIndices`. -/
def GatherCopyData (is_string_type : Bool) (get_index : Nat → Int)
    (src_base : Int → Nat) (src_str : Int → String)
    (dst_base : Int → Nat) (dst_str : Int → String)
    (element_bytes block_size M N data_batch_bytes gathered_batch_bytes : Nat)
    (input_data_shape : List Nat) (axis : Nat) :
    Status × (Int → Nat) × (Int → String) :=
  let axis_dim_limit : Int := (input_data_shape.getD axis 0 : Nat)
  match checkLoop get_index axis_dim_limit 0 N with
  | some idx =>
      (Status.invalidArgument idx (-axis_dim_limit) (axis_dim_limit - 1), dst_base, dst_str)
  | none =>
      (Status.ok,
       (List.range (M * N)).foldl
         (gatherLambda is_string_type get_index src_base src_str element_bytes block_size N
           data_batch_bytes gathered_batch_bytes axis_dim_limit)
         (dst_base, dst_str))

/-- Element type of the `indices` tensor: the kernel dispatches on
`IsDataType<int32_t>` / `IsDataType<int64_t>` and rejects anything else. The
payload of the two integer cases is the flattened index data (an `int32_t`
value is embedded exactly by `static_cast<int64_t>`). -/
inductive TindKind where
  | i32 (vals : List Int) : TindKind
  | i64 (vals : List Int) : TindKind
  | other (typeName : String) : TindKind

/-- Inputs of `Gather::Compute`: the shapes, the element type information of
`data`, the source buffer (byte view and string view), the host-allocated
output buffer (byte view and string view), and the indices tensor. `axis` is
the already-normalized axis attribute. -/
structure ComputeArgs where
  input_data_shape : List Nat
  indices_shape : List Nat
  axis : Nat
  is_string_type : Bool
  element_bytes : Nat
  src_base : Int → Nat
  src_str : Int → String
  dst_base : Int → Nat
  dst_str : Int → String
  tind : TindKind

/-- Mirrors `Gather::Compute` (gather.cc:103-139): derives `block`,
`block_size`, `M`, `N`, `data_batch_bytes`, `gathered_batch_bytes` from the
shapes, dispatches on the indices element type, and fails with
`NOT_IMPLEMENTED` (leaving the output untouched) for any other type. -/
def GatherCompute (c : ComputeArgs) : Status × (Int → Nat) × (Int → String) :=
  let block := sizeFromDimension c.input_data_shape (c.axis + 1)
  let block_size := block * c.element_bytes
  let M := sizeToDimension c.input_data_shape c.axis
  let N := sizeOfDims c.indices_shape
  let data_batch_bytes := sizeFromDimension c.input_data_shape c.axis * c.element_bytes
  let gathered_batch_bytes := N * block * c.element_bytes
  match c.tind with
  | TindKind.i32 vals =>
      GatherCopyData c.is_string_type (fun i => vals.getD i 0) c.src_base c.src_str
        c.dst_base c.dst_str c.element_bytes block_size M N data_batch_bytes
        gathered_batch_bytes c.input_data_shape c.axis
  | TindKind.i64 vals =>
      GatherCopyData c.is_string_type (fun i => vals.getD i 0) c.src_base c.src_str
        c.dst_base c.dst_str c.element_bytes block_size M N data_batch_bytes
        gathered_batch_bytes c.input_data_shape c.axis
  | TindKind.other _ =>
      (Status.notImplemented "Type for Tind not supported yet in Gather.", c.dst_base, c.dst_str)

/-- Contiguous chunk `[first, last)` of gather units, as handed to one worker
invocation by `ThreadPool::TryParallelFor`. -/
def chunkUnits (first last : Nat) : List Nat :=
  (List.range (last - first)).map fun k => first + k

/-- Execution of the copy phase under an arbitrary chunk schedule: each chunk
`(first, last)` runs its units in order, and the chunks run in the order
given (a serialization of the parallel schedule). -/
def runChunks (is_string_type : Bool) (get_index : Nat → Int)
    (src_base : Int → Nat) (src_str : Int → String)
    (element_bytes block_size N data_batch_bytes gathered_batch_bytes : Nat)
    (axis_dim_limit : Int)
    (bufs : (Int → Nat) × (Int → String)) (chunks : List (Nat × Nat)) :
    (Int → Nat) × (Int → String) :=
  chunks.foldl
    (fun b c =>
      (chunkUnits c.1 c.2).foldl
        (gatherLambda is_string_type get_index src_base src_str element_bytes block_size N
          data_batch_bytes gathered_batch_bytes axis_dim_limit)
        b)
    bufs

/-- Value of `static_cast<int>(x)` for an `int64_t`/`ptrdiff_t` value `x`:
reduction modulo `2^32` into `[-2^31, 2^31)`. The literals are
`2147483648 = 2^31` and `4294967296 = 2^32`. -/
def toInt32 (x : Int) : Int := (x + 2147483648) % 4294967296 - 2147483648

/-- Unit indices actually visited by the chunk worker of gather.cc:94-98,
which runs `for (int index = static_cast<int>(first), end = static_cast<int>(last);
index < end; ++index)`: the `int` values from `toInt32 first` up to
`toInt32 last` (none when `toInt32 last ≤ toInt32 first`). -/
def chunkWorkerIndices (first last : Int) : List Int :=
  (List.range (toInt32 last - toInt32 first).toNat).map fun k => toInt32 first + (k : Nat)

/-- Concrete string source used for evaluation: slots `0..3` hold
`"a" "b" "c" "d"`, a 2x2 string tensor in row-major order. -/
def exStr4 (a : Int) : String :=
  if a = 0 then "a" else if a = 1 then "b" else if a = 2 then "c" else if a = 3 then "d" else "?"

end OnnxGather

namespace OnnxGather

section Shape

/-- Length arithmetic of the output shape: with `a < n`,
`a + m + (n - (a + 1)) = n - 1 + m`. -/
theorem append_length_formula (n m a : Nat) (h : a < n) :
    a + m + (n - (a + 1)) = n - 1 + m := by
  obtain ⟨t, rfl⟩ : ∃ t, n = a + 1 + t := ⟨n - (a + 1), (Nat.add_sub_cancel' h).symm⟩
  rw [Nat.add_sub_cancel_left, add_right_comm a 1 t, Nat.add_sub_cancel, add_right_comm a m t]

/-- Reading positions `0, ..., n-1` of a list (as `operator[]` does in the
first `PrepareForCompute` loop) produces its `n`-element front. -/
theorem range_map_getD_eq_take (l : List Nat) (n : Nat) (h : n ≤ l.length) :
    (List.range n).map (fun i => l.getD i 0) = l.take n := by
  induction n with
  | zero => simp
  | succ m ih =>
    have hm : m < l.length := h
    rw [List.range_succ, List.map_append, ih (Nat.le_of_lt hm), List.take_succ]
    simp [List.getD_eq_getElem?_getD, List.getElem?_eq_getElem hm]

/-- Reading positions `s, s+1, ...` up to the end of a list (as the last
`PrepareForCompute` loop does) produces its tail from `s`. -/
theorem range_map_getD_eq_drop (l : List Nat) (s : Nat) :
    (List.range (l.length - s)).map (fun k => l.getD (s + k) 0) = l.drop s := by
  have h1 : ∀ k : Nat, l.getD (s + k) 0 = (l.drop s).getD k 0 := by
    intro k
    simp [List.getD_eq_getElem?_getD, List.getElem?_drop]
  calc (List.range (l.length - s)).map (fun k => l.getD (s + k) 0)
      = (List.range ((l.drop s).length)).map (fun k => (l.drop s).getD k 0) := by
        rw [List.length_drop]
        exact List.map_congr_left fun k _ => h1 k
    _ = (l.drop s).take ((l.drop s).length) := range_map_getD_eq_take _ _ le_rfl
    _ = l.drop s := List.take_length _

/-- C1: for every input shape, indices shape and valid (normalized) axis, the
output shape built by `GatherBase::PrepareForCompute` equals
`input.shape[0:axis] ++ indices.shape ++ input.shape[axis+1:]`, hence
`output.rank = input.rank - 1 + indices.rank`. -/
theorem C1_shape_law (input_data_shape indices_shape : List Nat) (axis : Nat)
    (h : axis < input_data_shape.length) :
    prepareOutputShape input_data_shape indices_shape axis
        = input_data_shape.take axis ++ indices_shape ++ input_data_shape.drop (axis + 1)
      ∧ (prepareOutputShape input_data_shape indices_shape axis).length
        = input_data_shape.length - 1 + indices_shape.length := by
  have htake := range_map_getD_eq_take input_data_shape axis (Nat.le_of_lt h)
  have hdrop := range_map_getD_eq_drop input_data_shape (axis + 1)
  have h1 : prepareOutputShape input_data_shape indices_shape axis
      = input_data_shape.take axis ++ indices_shape ++ input_data_shape.drop (axis + 1) := by
    unfold prepareOutputShape
    rw [htake, hdrop]
  refine ⟨h1, ?_⟩
  rw [h1, List.length_append, List.length_append, List.length_take, List.length_drop,
    Nat.min_eq_left (Nat.le_of_lt h)]
  exact append_length_formula _ _ _ h

/-- Witness for C1 at scenario 1 of the spec: data shape `[3,4]`, `axis = 0`,
indices shape `[2]` gives output shape `[2,4]` of rank `2 = 2 - 1 + 1`. -/
theorem C1_shape_law_witness :
    (0 < ([3, 4] : List Nat).length)
      ∧ (prepareOutputShape [3, 4] [2] 0
            = ([3, 4] : List Nat).take 0 ++ [2] ++ ([3, 4] : List Nat).drop 1
          ∧ (prepareOutputShape [3, 4] [2] 0).length
            = ([3, 4] : List Nat).length - 1 + ([2] : List Nat).length) :=
  ⟨by decide, C1_shape_law [3, 4] [2] 0 (by decide)⟩

end Shape

section Validation

/-- Reindexing of the validation loop's scan position. -/
theorem succ_shift (i k : Nat) : i + 1 + k = i + (k + 1) := by
  rw [Nat.add_assoc, Nat.add_comm 1 k]

/-- Characterization of the validation loop returning `none`: every scanned
position holds an index inside `[-limit, limit)`. -/
theorem checkLoop_none_iff (g : Nat → Int) (limit : Int) (rem : Nat) : ∀ i : Nat,
    (checkLoop g limit i rem = none ↔ ∀ k < rem, ¬(g (i + k) < -limit ∨ limit ≤ g (i + k))) := by
  induction rem with
  | zero => intro i; simp [checkLoop]
  | succ m ih =>
    intro i
    by_cases h : g i < -limit ∨ limit ≤ g i
    · simp only [checkLoop, if_pos h]
      constructor
      · intro hc; cases hc
      · intro hall
        exact absurd h (by simpa using hall 0 (Nat.succ_pos m))
    · simp only [checkLoop, if_neg h]
      rw [ih (i + 1)]
      constructor
      · intro hall k hk
        cases k with
        | zero => simpa using h
        | succ k' =>
          have := hall k' (Nat.lt_of_succ_lt_succ hk)
          rwa [succ_shift i k'] at this
      · intro hall k hk
        have := hall (k + 1) (Nat.succ_lt_succ hk)
        rwa [← succ_shift i k] at this

/-- Characterization of the validation loop returning `some idx`: `idx` is the
value at the first scanned position falling outside `[-limit, limit)`. -/
theorem checkLoop_some_spec (g : Nat → Int) (limit : Int) (rem : Nat) : ∀ (i : Nat) (idx : Int),
    checkLoop g limit i rem = some idx →
    ∃ k < rem, idx = g (i + k) ∧ (g (i + k) < -limit ∨ limit ≤ g (i + k))
      ∧ ∀ k' < k, ¬(g (i + k') < -limit ∨ limit ≤ g (i + k')) := by
  induction rem with
  | zero => intro i idx h; simp [checkLoop] at h
  | succ m ih =>
    intro i idx h
    by_cases hc : g i < -limit ∨ limit ≤ g i
    · simp only [checkLoop, if_pos hc] at h
      refine ⟨0, Nat.succ_pos m, ?_, by simpa using hc,
        fun k' hk' => absurd hk' (Nat.not_lt_zero k')⟩
      simpa using (Option.some.inj h).symm
    · simp only [checkLoop, if_neg hc] at h
      obtain ⟨k, hk, h1, h2, h3⟩ := ih (i + 1) idx h
      refine ⟨k + 1, Nat.succ_lt_succ hk, ?_, ?_, ?_⟩
      · rwa [succ_shift i k] at h1
      · rwa [succ_shift i k] at h2
      · intro k' hk'
        cases k' with
        | zero => simpa using hc
        | succ j =>
          have := h3 j (Nat.lt_of_succ_lt_succ hk')
          rwa [succ_shift i j] at this

/-- The validation loop accepts when every position holds an in-range index. -/
theorem checkLoop_none_of_valid (g : Nat → Int) (limit : Int) (N : Nat)
    (hv : ∀ i < N, -limit ≤ g i ∧ g i < limit) :
    checkLoop g limit 0 N = none := by
  rw [checkLoop_none_iff]
  intro k hk hor
  rcases hv k hk with ⟨hlo, hhi⟩
  simp only [Nat.zero_add] at hor
  rcases hor with h | h
  · exact absurd h (not_lt.2 hlo)
  · exact absurd h (not_le.2 hhi)

/-- C2: before any byte is copied, each of the `N` distinct index positions is
checked against `[-dim, dim)`; when some index is out of range, the operation
returns `INVALID_ARGUMENT` carrying the first offending index value and the
inclusive valid range `[-dim, dim-1]`, and both destination views are returned
exactly as they were handed in (no partial output). -/
theorem C2_validation_atomicity
    (is_string_type : Bool) (get_index : Nat → Int)
    (src_base : Int → Nat) (src_str : Int → String)
    (dst_base : Int → Nat) (dst_str : Int → String)
    (element_bytes block_size M N data_batch_bytes gathered_batch_bytes : Nat)
    (input_data_shape : List Nat) (axis : Nat)
    (hbad : ∃ i, i < N ∧ (get_index i < -(input_data_shape.getD axis 0 : Int)
        ∨ (input_data_shape.getD axis 0 : Int) ≤ get_index i)) :
    ∃ j, j < N
      ∧ (get_index j < -(input_data_shape.getD axis 0 : Int)
          ∨ (input_data_shape.getD axis 0 : Int) ≤ get_index j)
      ∧ (∀ j' < j, ¬(get_index j' < -(input_data_shape.getD axis 0 : Int)
          ∨ (input_data_shape.getD axis 0 : Int) ≤ get_index j'))
      ∧ GatherCopyData is_string_type get_index src_base src_str dst_base dst_str
            element_bytes block_size M N data_batch_bytes gathered_batch_bytes
            input_data_shape axis
          = (Status.invalidArgument (get_index j)
              (-(input_data_shape.getD axis 0 : Int))
              ((input_data_shape.getD axis 0 : Int) - 1), dst_base, dst_str) := by
  set limit : Int := (input_data_shape.getD axis 0 : Int) with hlimit
  cases h : checkLoop get_index limit 0 N with
  | none =>
    exfalso
    obtain ⟨i, hiN, hi⟩ := hbad
    have := (checkLoop_none_iff get_index limit N 0).1 h i hiN
    simp only [Nat.zero_add] at this
    exact this hi
  | some idx =>
    obtain ⟨k, hk, h1, h2, h3⟩ := checkLoop_some_spec get_index limit N 0 idx h
    simp only [Nat.zero_add] at h1 h2 h3
    refine ⟨k, hk, h2, h3, ?_⟩
    simp only [GatherCopyData]
    rw [← hlimit, h, ← h1]

/-- Witness for C2: `dim = 3`, single index `5` gives
`InvalidArgument idx=5 range [-3, 2]` and the destination views untouched. -/
theorem C2_validation_atomicity_witness :
    (∃ i, i < 1 ∧ (((fun _ : Nat => (5 : Int)) i < -(([3] : List Nat).getD 0 0 : Int))
        ∨ (([3] : List Nat).getD 0 0 : Int) ≤ (fun _ : Nat => (5 : Int)) i))
      ∧ ∃ j, j < 1
        ∧ ((fun _ : Nat => (5 : Int)) j < -(([3] : List Nat).getD 0 0 : Int)
            ∨ (([3] : List Nat).getD 0 0 : Int) ≤ (fun _ : Nat => (5 : Int)) j)
        ∧ (∀ j' < j, ¬((fun _ : Nat => (5 : Int)) j' < -(([3] : List Nat).getD 0 0 : Int)
            ∨ (([3] : List Nat).getD 0 0 : Int) ≤ (fun _ : Nat => (5 : Int)) j'))
        ∧ GatherCopyData false (fun _ : Nat => (5 : Int)) (fun _ => 0) (fun _ => "")
              (fun _ => 99) (fun _ => "x") 1 1 1 1 3 1 [3] 0
            = (Status.invalidArgument ((fun _ : Nat => (5 : Int)) j)
                (-(([3] : List Nat).getD 0 0 : Int))
                ((([3] : List Nat).getD 0 0 : Int) - 1), (fun _ => 99), (fun _ => "x")) :=
  ⟨⟨0, Nat.one_pos, Or.inr (by decide)⟩,
    C2_validation_atomicity false (fun _ => (5 : Int)) (fun _ => 0) (fun _ => "")
      (fun _ => 99) (fun _ => "x") 1 1 1 1 3 1 [3] 0
      ⟨0, Nat.one_pos, Or.inr (by decide)⟩⟩

/-- C9: with an empty index tensor (`N = 0`) the validation loop checks
nothing, no gather unit executes, and the operation returns `OK` with the
(empty) output untouched. -/
theorem C9_empty_indices
    (is_string_type : Bool) (get_index : Nat → Int)
    (src_base : Int → Nat) (src_str : Int → String)
    (dst_base : Int → Nat) (dst_str : Int → String)
    (element_bytes block_size M N data_batch_bytes gathered_batch_bytes : Nat)
    (input_data_shape : List Nat) (axis : Nat)
    (hN : N = 0) :
    GatherCopyData is_string_type get_index src_base src_str dst_base dst_str
        element_bytes block_size M N data_batch_bytes gathered_batch_bytes
        input_data_shape axis
      = (Status.ok, dst_base, dst_str) := by
  subst hN
  rfl

/-- Witness for C9 at a concrete empty-index instance. -/
theorem C9_empty_indices_witness :
    (0 : Nat) = 0
      ∧ GatherCopyData false (fun _ => 0) (fun _ => 0) (fun _ => "")
          (fun _ => 7) (fun _ => "y") 1 1 2 0 3 0 [3] 0
        = (Status.ok, (fun _ => 7), (fun _ => "y")) :=
  ⟨rfl, C9_empty_indices false (fun _ => 0) (fun _ => 0) (fun _ => "")
    (fun _ => 7) (fun _ => "y") 1 1 2 0 3 0 [3] 0 rfl⟩

/-- C7: when the indices element type is neither `int32_t` nor `int64_t`,
`Gather::Compute` returns `NOT_IMPLEMENTED` naming the unsupported `Tind`
and the output is untouched (the check fires before any copy). -/
theorem C7_tind_not_implemented (c : ComputeArgs) (s : String)
    (h : c.tind = TindKind.other s) :
    GatherCompute c
      = (Status.notImplemented "Type for Tind not supported yet in Gather.",
          c.dst_base, c.dst_str) := by
  simp only [GatherCompute, h]

/-- Witness for C7 at a concrete unsupported index type. -/
theorem C7_tind_not_implemented_witness :
    (ComputeArgs.mk [1] [1] 0 false 1 (fun _ => 0) (fun _ => "") (fun _ => 0) (fun _ => "")
          (TindKind.other "tensor(float)")).tind = TindKind.other "tensor(float)"
      ∧ GatherCompute
          (ComputeArgs.mk [1] [1] 0 false 1 (fun _ => 0) (fun _ => "") (fun _ => 0) (fun _ => "")
            (TindKind.other "tensor(float)"))
        = (Status.notImplemented "Type for Tind not supported yet in Gather.",
            (fun _ => 0), (fun _ => "")) :=
  ⟨rfl,
    C7_tind_not_implemented
      (ComputeArgs.mk [1] [1] 0 false 1 (fun _ => 0) (fun _ => "") (fun _ => 0) (fun _ => "")
        (TindKind.other "tensor(float)")) "tensor(float)" rfl⟩

end Validation

section ByteEngine

variable (get_index : Nat → Int) (src_base : Int → Nat) (src_str : Int → String)
variable (element_bytes block_size N data_batch_bytes gathered_batch_bytes : Nat)
variable (axis_dim_limit : Int)

/-- With `gathered_batch_bytes = N * block_size` (how `Gather::Compute` sets it),
the destination offset `batch * gathered_batch_bytes + i * block_size` of unit
`v` flattens to `v * block_size`. -/
theorem dst_offset_flat (v N bs : Nat) : (v / N) * (N * bs) + (v % N) * bs = v * bs := by
  rw [← Nat.mul_assoc, Nat.mul_comm (v / N) N, ← Nat.add_mul, Nat.div_add_mod]

/-- Pointwise behaviour of the fixed-width branch of the copy `lambda`: unit `v`
overwrites exactly the byte range `[v*block_size, v*block_size + block_size)` of
the destination with the block at its source offset. -/
theorem gatherLambda_bytes_apply
    (hg : gathered_batch_bytes = N * block_size)
    (bufs : (Int → Nat) × (Int → String)) (v : Nat) (a : Int) :
    (gatherLambda false get_index src_base src_str element_bytes block_size N
        data_batch_bytes gathered_batch_bytes axis_dim_limit bufs v).1 a
      = if ((v * block_size : Nat) : Int) ≤ a
            ∧ a < ((v * block_size : Nat) : Int) + (block_size : Int)
        then src_base (((v / N) * data_batch_bytes : Nat)
          + resolveIdx axis_dim_limit (get_index (v % N)) * (block_size : Int)
          + (a - ((v * block_size : Nat) : Int)))
        else bufs.1 a := by
  have h1 : (v / N) * gathered_batch_bytes + (v % N) * block_size = v * block_size := by
    rw [hg]; exact dst_offset_flat v N block_size
  have h2 : ((v / N * gathered_batch_bytes : Nat) : Int) + ((v % N * block_size : Nat) : Int)
      = ((v * block_size : Nat) : Int) := by exact_mod_cast h1
  have hraw : (gatherLambda false get_index src_base src_str element_bytes block_size N
        data_batch_bytes gathered_batch_bytes axis_dim_limit bufs v).1 a
      = if ((v / N * gathered_batch_bytes : Nat) : Int) + ((v % N * block_size : Nat) : Int) ≤ a
            ∧ a < ((v / N * gathered_batch_bytes : Nat) : Int) + ((v % N * block_size : Nat) : Int)
                + (block_size : Int)
        then src_base (((v / N) * data_batch_bytes : Nat)
          + resolveIdx axis_dim_limit (get_index (v % N)) * (block_size : Int)
          + (a - (((v / N * gathered_batch_bytes : Nat) : Int)
              + ((v % N * block_size : Nat) : Int))))
        else bufs.1 a := rfl
  rw [hraw, h2]

/-- The fixed-width branch never touches the string view. -/
theorem gatherLambda_bytes_snd
    (bufs : (Int → Nat) × (Int → String)) (v : Nat) :
    (gatherLambda false get_index src_base src_str element_bytes block_size N
        data_batch_bytes gathered_batch_bytes axis_dim_limit bufs v).2 = bufs.2 := rfl

/-- Destination byte ranges of two distinct gather units are disjoint (the
byte `u*bs + j`, `j < bs`, lies in no other unit's range). -/
theorem unit_ranges_disjoint (u v bs j : Nat) (hj : j < bs) (hvu : v ≠ u) :
    ¬(((v * bs : Nat) : Int) ≤ ((u * bs + j : Nat) : Int)
      ∧ ((u * bs + j : Nat) : Int) < ((v * bs : Nat) : Int) + (bs : Int)) := by
  rintro ⟨h1, h2⟩
  have h1' : v * bs ≤ u * bs + j := by exact_mod_cast h1
  have h2' : u * bs + j < v * bs + bs := by exact_mod_cast h2
  rcases Nat.lt_or_ge v u with hlt | hge
  · have hle : (v + 1) * bs ≤ u * bs := Nat.mul_le_mul_right _ hlt
    have hvb : v * bs + bs ≤ u * bs := (Nat.succ_mul v bs).symm.trans_le hle
    exact absurd (Nat.lt_of_lt_of_le h2' hvb) (Nat.not_lt.2 (Nat.le_add_right _ _))
  · have hvgt : u < v := Nat.lt_of_le_of_ne hge fun h => hvu h.symm
    have hle : (u + 1) * bs ≤ v * bs := Nat.mul_le_mul_right _ hvgt
    have hub : u * bs + bs ≤ v * bs := (Nat.succ_mul u bs).symm.trans_le hle
    exact absurd (Nat.lt_of_le_of_lt h1'
      (Nat.lt_of_lt_of_le (Nat.add_lt_add_left hj (u * bs)) hub)) (Nat.lt_irrefl _)

/-- A byte position lying in no executed unit's destination range is not
modified by the copy phase. -/
theorem foldl_bytes_preserve
    (hg : gathered_batch_bytes = N * block_size)
    (l : List Nat) (bufs : (Int → Nat) × (Int → String)) (a : Int)
    (ha : ∀ v ∈ l, ¬(((v * block_size : Nat) : Int) ≤ a
        ∧ a < ((v * block_size : Nat) : Int) + (block_size : Int))) :
    ((l.foldl (gatherLambda false get_index src_base src_str element_bytes block_size N
        data_batch_bytes gathered_batch_bytes axis_dim_limit) bufs).1) a = bufs.1 a := by
  induction l generalizing bufs with
  | nil => rfl
  | cons v t ih =>
    rw [List.foldl_cons]
    rw [ih _ fun w hw => ha w (List.mem_cons_of_mem _ hw)]
    rw [gatherLambda_bytes_apply get_index src_base src_str element_bytes block_size N
        data_batch_bytes gathered_batch_bytes axis_dim_limit hg bufs v a]
    rw [if_neg (ha v (List.mem_cons_self _ _))]

/-- In the copy phase over a duplicate-free unit list containing `u`, byte
`j` of unit `u`'s destination block holds byte `j` of the block at `u`'s
source offset (no later unit overwrites it, by disjointness). -/
theorem foldl_bytes_write
    (hg : gathered_batch_bytes = N * block_size)
    (l : List Nat) (bufs : (Int → Nat) × (Int → String)) (u j : Nat)
    (hu : u ∈ l) (hnd : l.Nodup) (hj : j < block_size) :
    ((l.foldl (gatherLambda false get_index src_base src_str element_bytes block_size N
        data_batch_bytes gathered_batch_bytes axis_dim_limit) bufs).1)
        ((u * block_size + j : Nat) : Int)
      = src_base (((u / N) * data_batch_bytes : Nat)
          + resolveIdx axis_dim_limit (get_index (u % N)) * (block_size : Int)
          + ((j : Nat) : Int)) := by
  induction l generalizing bufs with
  | nil => cases hu
  | cons v t ih =>
    rw [List.foldl_cons]
    rcases List.mem_cons.1 hu with rfl | hut
    · have hnotin : u ∉ t := (List.nodup_cons.1 hnd).1
      rw [foldl_bytes_preserve get_index src_base src_str element_bytes block_size N
          data_batch_bytes gathered_batch_bytes axis_dim_limit hg t _ _
          fun w hw => unit_ranges_disjoint u w block_size j hj (fun h => hnotin (h ▸ hw))]
      rw [gatherLambda_bytes_apply get_index src_base src_str element_bytes block_size N
          data_batch_bytes gathered_batch_bytes axis_dim_limit hg bufs u _]
      rw [if_pos ⟨by exact_mod_cast Nat.le_add_right _ _,
        by exact_mod_cast Nat.add_lt_add_left hj (u * block_size)⟩]
      congr 1
      rw [Nat.cast_add, add_sub_cancel_left]
    · exact ih _ hut (List.nodup_cons.1 hnd).2

/-- C3: with all indices valid and `gathered_batch_bytes = N * block_size` (as
`Gather::Compute` passes it), the fixed-width engine returns `OK`; for every
gather unit `u < M*N` with `batch = u / N` and `i = u % N` it copies exactly
`block_size` bytes from source offset
`batch * data_batch_bytes + resolve(index[i]) * block_size` to destination
offset `batch * gathered_batch_bytes + i * block_size`; and every destination
byte outside all units' ranges is untouched. -/
theorem C3_fixed_width_unit_copy
    (dst_base : Int → Nat) (dst_str : Int → String)
    (M : Nat) (input_data_shape : List Nat) (axis : Nat)
    (hg : gathered_batch_bytes = N * block_size)
    (hvalid : ∀ i < N, -(input_data_shape.getD axis 0 : Int) ≤ get_index i
        ∧ get_index i < (input_data_shape.getD axis 0 : Int))
    (u : Nat) (hu : u < M * N) :
    (GatherCopyData false get_index src_base src_str dst_base dst_str element_bytes
        block_size M N data_batch_bytes gathered_batch_bytes input_data_shape axis).1
      = Status.ok
    ∧ (∀ j < block_size,
        (GatherCopyData false get_index src_base src_str dst_base dst_str element_bytes
            block_size M N data_batch_bytes gathered_batch_bytes input_data_shape axis).2.1
            (((u / N) * gathered_batch_bytes + (u % N) * block_size + j : Nat) : Int)
          = src_base (((u / N) * data_batch_bytes : Nat)
              + resolveIdx (input_data_shape.getD axis 0 : Int) (get_index (u % N))
                  * (block_size : Int)
              + ((j : Nat) : Int)))
    ∧ (∀ a : Int,
        (∀ v, v < M * N →
          ¬((((v / N) * gathered_batch_bytes + (v % N) * block_size : Nat) : Int) ≤ a
            ∧ a < (((v / N) * gathered_batch_bytes + (v % N) * block_size : Nat) : Int)
                + (block_size : Int))) →
        (GatherCopyData false get_index src_base src_str dst_base dst_str element_bytes
            block_size M N data_batch_bytes gathered_batch_bytes input_data_shape axis).2.1 a
          = dst_base a) := by
  have hflat : ∀ v : Nat, (v / N) * gathered_batch_bytes + (v % N) * block_size
      = v * block_size := by
    intro v; rw [hg]; exact dst_offset_flat v N block_size
  have hnone : checkLoop get_index (input_data_shape.getD axis 0 : Int) 0 N = none :=
    checkLoop_none_of_valid get_index (input_data_shape.getD axis 0 : Int) N hvalid
  constructor
  · simp only [GatherCopyData, hnone]
  constructor
  · intro j hj
    simp only [GatherCopyData, hnone]
    rw [hflat u]
    exact foldl_bytes_write get_index src_base src_str element_bytes block_size N
      data_batch_bytes gathered_batch_bytes (input_data_shape.getD axis 0 : Int) hg
      (List.range (M * N)) (dst_base, dst_str) u j (List.mem_range.2 hu)
      (List.nodup_range _) hj
  · intro a ha
    simp only [GatherCopyData, hnone]
    refine foldl_bytes_preserve get_index src_base src_str element_bytes block_size N
      data_batch_bytes gathered_batch_bytes (input_data_shape.getD axis 0 : Int) hg
      (List.range (M * N)) (dst_base, dst_str) a ?_
    intro v hv
    have := ha v (List.mem_range.1 hv)
    rwa [hflat v] at this

end ByteEngine

/-- Witness for C3: data of shape `[3]` (1-byte elements), indices
`[0, 2]`, unit `u = 1` copies the byte at source offset `2` to destination
offset `1`. -/
theorem C3_fixed_width_unit_copy_witness :
    ((2 : Nat) = 2 * 1)
    ∧ (∀ i < 2, -(([3] : List Nat).getD 0 0 : Int) ≤ ([0, 2] : List Int).getD i 0
        ∧ ([0, 2] : List Int).getD i 0 < (([3] : List Nat).getD 0 0 : Int))
    ∧ (1 < 1 * 2)
    ∧ ((GatherCopyData false (fun i => [0, 2].getD i 0) (fun _ => 0) (fun _ => "") (fun _ => 0) (fun _ => "") 1 1 1 2 3 2 [3] 0).1
        = Status.ok
      ∧ (∀ j < 1,
          (GatherCopyData false (fun i => [0, 2].getD i 0) (fun _ => 0) (fun _ => "") (fun _ => 0) (fun _ => "") 1 1 1 2 3 2 [3] 0).2.1
              (((1 / 2) * 2 + (1 % 2) * 1 + j : Nat) : Int)
            = (fun _ => 0 : Int → Nat)
                (((1 / 2) * 3 : Nat)
                  + resolveIdx (([3] : List Nat).getD 0 0 : Int) (([0, 2] : List Int).getD (1 % 2) 0)
                      * ((1 : Nat) : Int)
                  + ((j : Nat) : Int)))
      ∧ (∀ a : Int,
          (∀ v, v < 1 * 2 →
            ¬((((v / 2) * 2 + (v % 2) * 1 : Nat) : Int) ≤ a
              ∧ a < (((v / 2) * 2 + (v % 2) * 1 : Nat) : Int) + ((1 : Nat) : Int))) →
          (GatherCopyData false (fun i => [0, 2].getD i 0) (fun _ => 0) (fun _ => "") (fun _ => 0) (fun _ => "") 1 1 1 2 3 2 [3] 0).2.1 a
            = (fun _ => (0 : Nat)) a)) :=
  ⟨rfl,
    fun i hi => by interval_cases i <;> exact ⟨by decide, by decide⟩,
    by decide,
    C3_fixed_width_unit_copy (fun i => [0, 2].getD i 0)
      (fun _ => 0)
      (fun _ => "") 1 1 2 3 2 (fun _ => 0) (fun _ => "") 1 [3] 0 rfl
      (fun i hi => by interval_cases i <;> exact ⟨by decide, by decide⟩)
      1 (by decide)⟩

section IndexCongr

/-- A non-negative index is left unchanged by negative-index resolution. -/
theorem resolveIdx_of_nonneg (limit idx : Int) (h : 0 ≤ idx) :
    resolveIdx limit idx = idx := if_neg (not_lt.2 h)

/-- The copy `lambda` consumes the index array only through the resolved
index of position `index % N`. -/
theorem gatherLambda_index_congr (is_string_type : Bool) (g1 g2 : Nat → Int)
    (src_base : Int → Nat) (src_str : Int → String)
    (element_bytes block_size N data_batch_bytes gathered_batch_bytes : Nat)
    (axis_dim_limit : Int)
    (bufs : (Int → Nat) × (Int → String)) (v : Nat)
    (hv : resolveIdx axis_dim_limit (g1 (v % N)) = resolveIdx axis_dim_limit (g2 (v % N))) :
    gatherLambda is_string_type g1 src_base src_str element_bytes block_size N
        data_batch_bytes gathered_batch_bytes axis_dim_limit bufs v
      = gatherLambda is_string_type g2 src_base src_str element_bytes block_size N
        data_batch_bytes gathered_batch_bytes axis_dim_limit bufs v := by
  simp only [gatherLambda, hv]

/-- Two index arrays that are in range and resolve identically at each of the
`N` positions drive `GatherCopyData` to the same result. -/
theorem GatherCopyData_index_congr (is_string_type : Bool) (g1 g2 : Nat → Int)
    (src_base : Int → Nat) (src_str : Int → String)
    (dst_base : Int → Nat) (dst_str : Int → String)
    (element_bytes block_size M N data_batch_bytes gathered_batch_bytes : Nat)
    (input_data_shape : List Nat) (axis : Nat)
    (hres : ∀ i < N, resolveIdx (input_data_shape.getD axis 0 : Int) (g1 i)
        = resolveIdx (input_data_shape.getD axis 0 : Int) (g2 i))
    (hv1 : ∀ i < N, -(input_data_shape.getD axis 0 : Int) ≤ g1 i
        ∧ g1 i < (input_data_shape.getD axis 0 : Int))
    (hv2 : ∀ i < N, -(input_data_shape.getD axis 0 : Int) ≤ g2 i
        ∧ g2 i < (input_data_shape.getD axis 0 : Int)) :
    GatherCopyData is_string_type g1 src_base src_str dst_base dst_str element_bytes
        block_size M N data_batch_bytes gathered_batch_bytes input_data_shape axis
      = GatherCopyData is_string_type g2 src_base src_str dst_base dst_str element_bytes
        block_size M N data_batch_bytes gathered_batch_bytes input_data_shape axis := by
  have h1 := checkLoop_none_of_valid g1 (input_data_shape.getD axis 0 : Int) N hv1
  have h2 := checkLoop_none_of_valid g2 (input_data_shape.getD axis 0 : Int) N hv2
  simp only [GatherCopyData, h1, h2]
  have hN : M * N = 0 ∨ 0 < N := by
    rcases Nat.eq_zero_or_pos N with h | h
    · left; rw [h, Nat.mul_zero]
    · right; exact h
  rcases hN with h | h
  · rw [h]; rfl
  · refine congrArg _ (List.foldl_ext _ _ _ fun bufs v hv => ?_)
    exact gatherLambda_index_congr is_string_type g1 g2 src_base src_str element_bytes
      block_size N data_batch_bytes gathered_batch_bytes _ bufs v
      (hres (v % N) (Nat.mod_lt v h))

/-- C5: a validated negative index `idx` resolves to `idx + dim`
(`idx < 0 ? idx + dim : idx`, applied per access after validation), and for
every valid `k` (`1 ≤ k ≤ dim`) gathering the constant index `-k` produces the
same status and output as gathering the constant index `dim - k`. -/
theorem C5_negative_index_equivalence
    (is_string_type : Bool)
    (src_base : Int → Nat) (src_str : Int → String)
    (dst_base : Int → Nat) (dst_str : Int → String)
    (element_bytes block_size M N data_batch_bytes gathered_batch_bytes : Nat)
    (input_data_shape : List Nat) (axis : Nat) (k : Nat)
    (hk1 : 1 ≤ k) (hk2 : k ≤ input_data_shape.getD axis 0) :
    resolveIdx (input_data_shape.getD axis 0 : Int) (-(k : Int))
        = (input_data_shape.getD axis 0 : Int) - (k : Int)
    ∧ GatherCopyData is_string_type (fun _ => -(k : Int)) src_base src_str dst_base dst_str
          element_bytes block_size M N data_batch_bytes gathered_batch_bytes
          input_data_shape axis
      = GatherCopyData is_string_type (fun _ => (input_data_shape.getD axis 0 : Int) - (k : Int))
          src_base src_str dst_base dst_str
          element_bytes block_size M N data_batch_bytes gathered_batch_bytes
          input_data_shape axis := by
  have hk1' : (1 : Int) ≤ (k : Int) := by exact_mod_cast hk1
  have hk2' : (k : Int) ≤ (input_data_shape.getD axis 0 : Int) := by exact_mod_cast hk2
  have hd0 : (0 : Int) ≤ (input_data_shape.getD axis 0 : Int) := Int.natCast_nonneg _
  have hkpos : (0 : Int) < (k : Int) := lt_of_lt_of_le one_pos hk1'
  have hneg : -(k : Int) < 0 := neg_neg_of_pos hkpos
  have hres1 : resolveIdx (input_data_shape.getD axis 0 : Int) (-(k : Int))
      = (input_data_shape.getD axis 0 : Int) - (k : Int) := by
    rw [resolveIdx, if_pos hneg, neg_add_eq_sub]
  refine ⟨hres1, ?_⟩
  refine GatherCopyData_index_congr is_string_type _ _ src_base src_str dst_base dst_str
    element_bytes block_size M N data_batch_bytes gathered_batch_bytes input_data_shape axis
    ?_ ?_ ?_
  · intro i _
    rw [hres1, resolveIdx_of_nonneg _ _ (sub_nonneg.mpr hk2')]
  · intro i _
    exact ⟨neg_le_neg hk2', lt_of_lt_of_le hneg hd0⟩
  · intro i _
    exact ⟨le_trans (neg_nonpos_of_nonneg hd0) (sub_nonneg.mpr hk2'),
      sub_lt_self _ hkpos⟩

end IndexCongr

/-- Witness for C5 at `dim = 3`, `k = 1`: gathering `[-1]` equals gathering
`[2]` (scenario 2 of the spec). -/
theorem C5_negative_index_equivalence_witness :
    1 ≤ 1 ∧ 1 ≤ ([3] : List Nat).getD 0 0
    ∧ (resolveIdx (([3] : List Nat).getD 0 0 : Int) (-((1 : Nat) : Int))
          = (([3] : List Nat).getD 0 0 : Int) - ((1 : Nat) : Int)
      ∧ GatherCopyData false (fun _ => -((1 : Nat) : Int)) (fun _ => 0) (fun _ => "")
            (fun _ => 0) (fun _ => "") 1 1 1 1 3 1 [3] 0
        = GatherCopyData false (fun _ => (([3] : List Nat).getD 0 0 : Int) - ((1 : Nat) : Int))
            (fun _ => 0) (fun _ => "") (fun _ => 0) (fun _ => "") 1 1 1 1 3 1 [3] 0) :=
  ⟨le_rfl, by decide,
    C5_negative_index_equivalence false (fun _ => 0) (fun _ => "")
      (fun _ => 0) (fun _ => "") 1 1 1 1 3 1 [3] 0 1 le_rfl (by decide)⟩


/-- Unfolding of `Gather::Compute` on an `int64_t` index tensor: it calls
`GatherCopyData` with the strides derived in gather.cc:111-117. -/
theorem GatherCompute_i64 (c : ComputeArgs) (vals : List Int)
    (h : c.tind = TindKind.i64 vals) :
    GatherCompute c
      = GatherCopyData c.is_string_type (fun i => vals.getD i 0) c.src_base c.src_str
          c.dst_base c.dst_str c.element_bytes
          (sizeFromDimension c.input_data_shape (c.axis + 1) * c.element_bytes)
          (sizeToDimension c.input_data_shape c.axis)
          (sizeOfDims c.indices_shape)
          (sizeFromDimension c.input_data_shape c.axis * c.element_bytes)
          (sizeOfDims c.indices_shape * sizeFromDimension c.input_data_shape (c.axis + 1)
            * c.element_bytes)
          c.input_data_shape c.axis := by
  simp only [GatherCompute, h]

/-- Reading position `i < n` of the identity index array `[0, ..., n-1]`. -/
theorem getD_range_map_cast (n i : Nat) (h : i < n) :
    ((List.range n).map fun j => ((j : Nat) : Int)).getD i 0 = ((i : Nat) : Int) := by
  simp [List.getD_eq_getElem?_getD, List.getElem?_map, List.getElem?_range h]

/-- Splitting the leading factor off `SizeFromDimension k` when `k < rank`. -/
theorem sizeFromDimension_head (l : List Nat) (k : Nat) (h : k < l.length) :
    sizeFromDimension l k = l.getD k 0 * sizeFromDimension l (k + 1) := by
  unfold sizeFromDimension sizeOfDims
  rw [List.drop_eq_getElem_cons h, List.prod_cons]
  congr 1
  simp [List.getD_eq_getElem?_getD, List.getElem?_eq_getElem h]

/-- Mirrors `Size() = SizeToDimension(k) * SizeFromDimension(k)`. -/
theorem sizeOfDims_split (l : List Nat) (k : Nat) :
    sizeOfDims l = sizeToDimension l k * sizeFromDimension l k := by
  unfold sizeOfDims sizeToDimension sizeFromDimension
  exact (List.prod_take_mul_prod_drop l k).symm

/-- Identity gather at the engine level: with the identity index array of
size `N = dim` and the strides `Gather::Compute` derives, every output byte
below `M * N * block_size` equals the input byte at the same offset. -/
theorem GatherCopyData_identity
    (get_index : Nat → Int) (src_base : Int → Nat) (src_str : Int → String)
    (dst_base : Int → Nat) (dst_str : Int → String)
    (element_bytes block_size M N data_batch_bytes gathered_batch_bytes : Nat)
    (input_data_shape : List Nat) (axis : Nat)
    (hdim : input_data_shape.getD axis 0 = N)
    (hgi : ∀ i < N, get_index i = ((i : Nat) : Int))
    (hdbb : data_batch_bytes = N * block_size)
    (hg : gathered_batch_bytes = N * block_size) :
    (GatherCopyData false get_index src_base src_str dst_base dst_str element_bytes block_size
        M N data_batch_bytes gathered_batch_bytes input_data_shape axis).1 = Status.ok
    ∧ ∀ a : Nat, a < M * N * block_size →
        (GatherCopyData false get_index src_base src_str dst_base dst_str element_bytes
            block_size M N data_batch_bytes gathered_batch_bytes input_data_shape axis).2.1
            ((a : Nat) : Int)
          = src_base ((a : Nat) : Int) := by
  have hvalid : ∀ i < N, -(input_data_shape.getD axis 0 : Int) ≤ get_index i
      ∧ get_index i < (input_data_shape.getD axis 0 : Int) := by
    intro i hi
    rw [hgi i hi, hdim]
    constructor
    · exact le_trans (neg_nonpos_of_nonneg (Int.natCast_nonneg N)) (Int.natCast_nonneg i)
    · exact_mod_cast hi
  have hnone := checkLoop_none_of_valid get_index (input_data_shape.getD axis 0 : Int) N hvalid
  constructor
  · simp only [GatherCopyData, hnone]
  · intro a ha
    have hbs : 0 < block_size := by
      rcases Nat.eq_zero_or_pos block_size with h | h
      · rw [h, Nat.mul_zero] at ha; exact absurd ha (Nat.not_lt_zero a)
      · exact h
    have hN : 0 < N := by
      rcases Nat.eq_zero_or_pos N with h | h
      · rw [h, Nat.mul_zero, Nat.zero_mul] at ha; exact absurd ha (Nat.not_lt_zero a)
      · exact h
    have hj : a % block_size < block_size := Nat.mod_lt _ hbs
    have hu : a / block_size < M * N := (Nat.div_lt_iff_lt_mul hbs).2 ha
    have ha' : (a / block_size) * block_size + a % block_size = a := by
      rw [Nat.mul_comm]; exact Nat.div_add_mod a block_size
    have hsrc : ((a / block_size) / N) * data_batch_bytes
        + ((a / block_size) % N) * block_size + (a % block_size) = a := by
      rw [hdbb, dst_offset_flat (a / block_size) N block_size]
      exact ha'
    simp only [GatherCopyData, hnone]
    rw [← ha']
    rw [foldl_bytes_write get_index src_base src_str element_bytes block_size N
        data_batch_bytes gathered_batch_bytes (input_data_shape.getD axis 0 : Int) hg
        (List.range (M * N)) (dst_base, dst_str) (a / block_size) (a % block_size)
        (List.mem_range.2 hu) (List.nodup_range _) hj]
    rw [hgi _ (Nat.mod_lt _ hN), resolveIdx_of_nonneg _ _ (Int.natCast_nonneg _)]
    congr 1
    rw [ha']
    exact_mod_cast hsrc

 

/-- C6 (amended to fixed-width element types): for every fixed-width input
tensor and every valid axis, gathering with `indices = [0, 1, ..., dim-1]`
along that axis reproduces the input tensor byte for byte. The claim as
stated over *every* input tensor fails for string tensors; see the
counterexample. -/
theorem C6_identity_fixed_width (c : ComputeArgs)
    (hax : c.axis < c.input_data_shape.length)
    (hstr : c.is_string_type = false)
    (hish : c.indices_shape = [c.input_data_shape.getD c.axis 0])
    (htind : c.tind = TindKind.i64
        ((List.range (c.input_data_shape.getD c.axis 0)).map fun j => ((j : Nat) : Int))) :
    (GatherCompute c).1 = Status.ok
    ∧ ∀ a : Nat, a < sizeOfDims c.input_data_shape * c.element_bytes →
        (GatherCompute c).2.1 ((a : Nat) : Int) = c.src_base ((a : Nat) : Int) := by
  rw [GatherCompute_i64 c _ htind, hstr]
  have hN : sizeOfDims c.indices_shape = c.input_data_shape.getD c.axis 0 := by
    rw [hish]; simp [sizeOfDims]
  have hblk : sizeFromDimension c.input_data_shape c.axis
      = c.input_data_shape.getD c.axis 0 * sizeFromDimension c.input_data_shape (c.axis + 1) :=
    sizeFromDimension_head _ _ hax
  have key := GatherCopyData_identity
    (fun i => ((List.range (c.input_data_shape.getD c.axis 0)).map fun j => ((j : Nat) : Int)).getD i 0)
    c.src_base c.src_str c.dst_base c.dst_str c.element_bytes
    (sizeFromDimension c.input_data_shape (c.axis + 1) * c.element_bytes)
    (sizeToDimension c.input_data_shape c.axis)
    (sizeOfDims c.indices_shape)
    (sizeFromDimension c.input_data_shape c.axis * c.element_bytes)
    (sizeOfDims c.indices_shape * sizeFromDimension c.input_data_shape (c.axis + 1)
      * c.element_bytes)
    c.input_data_shape c.axis
    hN.symm
    (fun i hi => getD_range_map_cast _ i (by rw [← hN]; exact hi))
    (by rw [hblk, hN]; exact Nat.mul_assoc _ _ _)
    (Nat.mul_assoc _ _ _)
  refine ⟨key.1, fun a ha => key.2 a ?_⟩
  have hbound : sizeToDimension c.input_data_shape c.axis * sizeOfDims c.indices_shape
      * (sizeFromDimension c.input_data_shape (c.axis + 1) * c.element_bytes)
      = sizeOfDims c.input_data_shape * c.element_bytes := by
    rw [sizeOfDims_split c.input_data_shape c.axis, hblk, hN,
      ← Nat.mul_assoc, Nat.mul_assoc (sizeToDimension c.input_data_shape c.axis)]
  rw [hbound]
  exact ha

/-- Witness for C6 (amended): identity gather of a `[2,2]` byte tensor along
axis 0 returns `OK` and reproduces all four bytes. -/
theorem C6_identity_fixed_width_witness :
    ((0 : Nat) < ([2, 2] : List Nat).length)
    ∧ ((GatherCompute (ComputeArgs.mk [2, 2] [2] 0 false 1 (fun _ => 0) (fun _ => "")
          (fun _ => 0) (fun _ => "")
          (TindKind.i64 ((List.range (([2, 2] : List Nat).getD 0 0)).map fun j => ((j : Nat) : Int))))).1
        = Status.ok
      ∧ ∀ a : Nat, a < sizeOfDims ([2, 2] : List Nat) * 1 →
          (GatherCompute (ComputeArgs.mk [2, 2] [2] 0 false 1 (fun _ => 0) (fun _ => "")
              (fun _ => 0) (fun _ => "")
              (TindKind.i64 ((List.range (([2, 2] : List Nat).getD 0 0)).map fun j => ((j : Nat) : Int))))).2.1
              ((a : Nat) : Int)
            = (fun _ : Int => (0 : Nat)) ((a : Nat) : Int)) :=
  ⟨by decide,
    C6_identity_fixed_width
      (ComputeArgs.mk [2, 2] [2] 0 false 1 (fun _ => 0) (fun _ => "")
        (fun _ => 0) (fun _ => "")
        (TindKind.i64 ((List.range (([2, 2] : List Nat).getD 0 0)).map fun j => ((j : Nat) : Int))))
      (by decide) rfl rfl rfl⟩

/-- Counterexample to C6 as stated: identity gather (`indices = [0, 1]`,
`axis = 0`) of the `[2,2]` string tensor `[["a","b"],["c","d"]]` does not
reproduce the input: output slot 1 keeps the destination's prior value (the
empty string) instead of `"b"`, because the string branch of the copy
`lambda` assigns only the first element-slot of each block. -/
theorem C6_identity_strings_counterexample :
    (GatherCompute (ComputeArgs.mk [2, 2] [2] 0 true 1 (fun _ => 0) exStr4 (fun _ => 0)
        (fun _ => "") (TindKind.i64 [0, 1]))).2.2 1
      ≠ exStr4 1 := by decide

/-- C4 (code bug): on the string tensor `[["a","b"],["c","d"]]` (shape
`[2,2]`, `axis = 0`, `indices = [1]`, so `block = 2`), the engine returns
`OK` and assigns only element-slot 0 of the block (receiving `"c"`), leaving
slot 1 at the destination's prior value `"init"` instead of the selected
`"d"`: the claim that every element-slot within the block is assigned fails. -/
theorem C4_string_block_copy_bug :
    (GatherCompute (ComputeArgs.mk [2, 2] [1] 0 true 1 (fun _ => 0) exStr4 (fun _ => 0)
        (fun _ => "init") (TindKind.i64 [1]))).1 = Status.ok
    ∧ (GatherCompute (ComputeArgs.mk [2, 2] [1] 0 true 1 (fun _ => 0) exStr4 (fun _ => 0)
        (fun _ => "init") (TindKind.i64 [1]))).2.2 0 = exStr4 2
    ∧ (GatherCompute (ComputeArgs.mk [2, 2] [1] 0 true 1 (fun _ => 0) exStr4 (fun _ => 0)
        (fun _ => "init") (TindKind.i64 [1]))).2.2 1 = "init"
    ∧ (GatherCompute (ComputeArgs.mk [2, 2] [1] 0 true 1 (fun _ => 0) exStr4 (fun _ => 0)
        (fun _ => "init") (TindKind.i64 [1]))).2.2 1 ≠ exStr4 3 :=
  ⟨rfl, rfl, rfl, by decide⟩

end OnnxGather

namespace OnnxGather

/-- The string branch never touches the byte view. -/
theorem gatherLambda_str_fst (g : Nat → Int) (src_base : Int → Nat) (src_str : Int → String)
    (eb bs N dbb gbb : Nat) (limit : Int)
    (bufs : (Int → Nat) × (Int → String)) (v : Nat) :
    (gatherLambda true g src_base src_str eb bs N dbb gbb limit bufs v).1 = bufs.1 := rfl

/-- Pointwise behaviour of the string branch of the copy `lambda` when
`block_size = block * element_bytes` (how `Gather::Compute` sets it): unit `v`
assigns exactly element slot `v * block` of the destination. -/
theorem gatherLambda_str_apply (g : Nat → Int) (src_base : Int → Nat) (src_str : Int → String)
    (eb bs N dbb gbb blk : Nat) (limit : Int)
    (hg : gbb = N * bs) (hblk : bs = blk * eb) (heb : 0 < eb)
    (bufs : (Int → Nat) × (Int → String)) (v : Nat) (a : Int) :
    (gatherLambda true g src_base src_str eb bs N dbb gbb limit bufs v).2 a
      = if a = ((v * blk : Nat) : Int)
        then src_str ((((v / N * dbb : Nat) : Int)
            + resolveIdx limit (g (v % N)) * (bs : Int)) / (eb : Int))
        else bufs.2 a := by
  have hraw : (gatherLambda true g src_base src_str eb bs N dbb gbb limit bufs v).2 a
      = if a = (((v / N * gbb : Nat) : Int) + ((v % N * bs : Nat) : Int)) / (eb : Int)
        then src_str ((((v / N * dbb : Nat) : Int)
            + resolveIdx limit (g (v % N)) * (bs : Int)) / (eb : Int))
        else bufs.2 a := rfl
  have h1 : (v / N) * gbb + (v % N) * bs = v * bs := by
    rw [hg]; exact dst_offset_flat v N bs
  have h2 : ((v / N * gbb : Nat) : Int) + ((v % N * bs : Nat) : Int) = ((v * bs : Nat) : Int) := by
    exact_mod_cast h1
  have h3 : v * bs = v * blk * eb := by rw [hblk]; exact (Nat.mul_assoc v blk eb).symm
  have hslot : (((v / N * gbb : Nat) : Int) + ((v % N * bs : Nat) : Int)) / (eb : Int)
      = ((v * blk : Nat) : Int) := by
    rw [h2, h3, ← Int.ofNat_ediv, Nat.mul_div_cancel _ heb]
  rw [hraw, hslot]

/-- No byte offset lies in the destination ranges of two distinct units. -/
theorem unit_ranges_disjoint_int (u v bs : Nat) (huv : u ≠ v) (a : Int)
    (hu : ((u * bs : Nat) : Int) ≤ a ∧ a < ((u * bs : Nat) : Int) + (bs : Int))
    (hv : ((v * bs : Nat) : Int) ≤ a ∧ a < ((v * bs : Nat) : Int) + (bs : Int)) : False := by
  rcases Nat.lt_or_ge u v with hlt | hge
  · have key : u * bs + bs ≤ v * bs :=
      (Nat.succ_mul u bs).symm.trans_le (Nat.mul_le_mul_right _ hlt)
    have key' : ((u * bs : Nat) : Int) + (bs : Int) ≤ ((v * bs : Nat) : Int) := by
      exact_mod_cast key
    exact absurd (hu.2.trans_le (key'.trans hv.1)) (lt_irrefl a)
  · have hgt : v < u := Nat.lt_of_le_of_ne hge fun h => huv h.symm
    have key : v * bs + bs ≤ u * bs :=
      (Nat.succ_mul v bs).symm.trans_le (Nat.mul_le_mul_right _ hgt)
    have key' : ((v * bs : Nat) : Int) + (bs : Int) ≤ ((u * bs : Nat) : Int) := by
      exact_mod_cast key
    exact absurd (hv.2.trans_le (key'.trans hu.1)) (lt_irrefl a)

/-- Two guarded updates with mutually exclusive guards commute. -/
theorem ite_comm_point {β : Type} (p q : Prop) [Decidable p] [Decidable q]
    (x y z : β) (hpq : p → q → False) :
    (if p then x else if q then y else z) = (if q then y else if p then x else z) := by
  by_cases h1 : p <;> by_cases h2 : q
  · exact (hpq h1 h2).elim
  · rw [if_pos h1, if_neg h2, if_pos h1]
  · rw [if_neg h1, if_pos h2, if_pos h2]
  · rw [if_neg h1, if_neg h2, if_neg h2, if_neg h1]

/-- Two gather units commute: they write disjoint destination ranges (byte
ranges in the fixed-width case, element slots in the string case) and read
only the source, so the order in which they execute is irrelevant. -/
theorem gatherLambda_comm (is_string_type : Bool) (g : Nat → Int)
    (src_base : Int → Nat) (src_str : Int → String)
    (eb bs N dbb gbb : Nat) (limit : Int)
    (hg : gbb = N * bs)
    (hstr : is_string_type = true → ∃ blk, 0 < blk ∧ 0 < eb ∧ bs = blk * eb)
    (z : (Int → Nat) × (Int → String)) (u v : Nat) :
    gatherLambda is_string_type g src_base src_str eb bs N dbb gbb limit
        (gatherLambda is_string_type g src_base src_str eb bs N dbb gbb limit z u) v
      = gatherLambda is_string_type g src_base src_str eb bs N dbb gbb limit
        (gatherLambda is_string_type g src_base src_str eb bs N dbb gbb limit z v) u := by
  rcases eq_or_ne u v with rfl | huv
  · rfl
  cases is_string_type with
  | false =>
    refine Prod.ext ?_ ?_
    · funext a
      simp only [gatherLambda_bytes_apply g src_base src_str eb bs N dbb gbb limit hg]
      exact ite_comm_point _ _ _ _ _
        (fun h1 h2 => unit_ranges_disjoint_int u v bs huv a h2 h1)
    · simp only [gatherLambda_bytes_snd]
  | true =>
    obtain ⟨blk, hblk0, heb, hbse⟩ := hstr rfl
    refine Prod.ext ?_ ?_
    · simp only [gatherLambda_str_fst]
    · funext a
      simp only [gatherLambda_str_apply g src_base src_str eb bs N dbb gbb blk limit hg hbse heb]
      exact ite_comm_point _ _ _ _ _
        (fun h1 h2 => huv (Nat.eq_of_mul_eq_mul_right hblk0
          (Int.natCast_inj.mp (h2.symm.trans h1))))

/-- Running a chunk schedule equals running the concatenation of its chunks'
unit lists in order. -/
theorem runChunks_eq_flat (is_string_type : Bool) (g : Nat → Int)
    (src_base : Int → Nat) (src_str : Int → String)
    (eb bs N dbb gbb : Nat) (limit : Int)
    (chunks : List (Nat × Nat)) (bufs : (Int → Nat) × (Int → String)) :
    runChunks is_string_type g src_base src_str eb bs N dbb gbb limit bufs chunks
      = (chunks.flatMap fun ch => chunkUnits ch.1 ch.2).foldl
          (gatherLambda is_string_type g src_base src_str eb bs N dbb gbb limit) bufs := by
  induction chunks generalizing bufs with
  | nil => rfl
  | cons ch t ih =>
    rw [List.flatMap_cons, List.foldl_append, ← ih]
    rfl

/-- C8: the result of the copy engine is independent of how the `M*N` gather
units are partitioned into chunks (and of the order the chunks run): any chunk
schedule whose units form a permutation of `[0, M*N)` — the sequential
single-chunk run included — produces the same destination, because chunks
write strictly disjoint destination ranges. The string-branch hypothesis
records `block_size = block * element_bytes` with a positive block, as at the
call site. -/
theorem C8_chunk_partition_determinism
    (is_string_type : Bool) (get_index : Nat → Int)
    (src_base : Int → Nat) (src_str : Int → String)
    (dst_base : Int → Nat) (dst_str : Int → String)
    (element_bytes block_size M N data_batch_bytes gathered_batch_bytes : Nat)
    (axis_dim_limit : Int) (chunks : List (Nat × Nat))
    (hg : gathered_batch_bytes = N * block_size)
    (hstr : is_string_type = true →
        ∃ blk, 0 < blk ∧ 0 < element_bytes ∧ block_size = blk * element_bytes)
    (hcover : List.Perm (chunks.flatMap fun ch => chunkUnits ch.1 ch.2) (List.range (M * N))) :
    runChunks is_string_type get_index src_base src_str element_bytes block_size N
        data_batch_bytes gathered_batch_bytes axis_dim_limit (dst_base, dst_str) chunks
      = (List.range (M * N)).foldl
          (gatherLambda is_string_type get_index src_base src_str element_bytes block_size N
            data_batch_bytes gathered_batch_bytes axis_dim_limit)
          (dst_base, dst_str) := by
  rw [runChunks_eq_flat]
  exact hcover.foldl_eq'
    (fun x _ y _ z => gatherLambda_comm is_string_type get_index src_base src_str
      element_bytes block_size N data_batch_bytes gathered_batch_bytes axis_dim_limit
      hg hstr z x y)
    (dst_base, dst_str)

/-- Witness for C8: the two-chunk schedule `[2,4), [0,2)` (reversed order)
equals the sequential run over `[0, 4)`. -/
theorem C8_chunk_partition_determinism_witness :
    ((2 : Nat) = 2 * 1)
    ∧ List.Perm (([((2 : Nat), (4 : Nat)), ((0 : Nat), (2 : Nat))].flatMap
        fun ch => chunkUnits ch.1 ch.2) : List Nat) (List.range (2 * 2))
    ∧ runChunks false (fun i => [0, 1].getD i 0) (fun _ => 0) (fun _ => "")
          1 1 2 2 2 3 (fun _ => 0, fun _ => "") [(2, 4), (0, 2)]
      = (List.range (2 * 2)).foldl
          (gatherLambda false (fun i => [0, 1].getD i 0) (fun _ => 0) (fun _ => "")
            1 1 2 2 2 3)
          (fun _ => 0, fun _ => "") :=
  ⟨rfl, by decide,
    C8_chunk_partition_determinism false (fun i => [0, 1].getD i 0) (fun _ => 0)
      (fun _ => "") (fun _ => 0) (fun _ => "") 1 1 2 2 2 2 3 [(2, 4), (0, 2)] rfl
      (fun h => Bool.noConfusion h) (by decide)⟩

/-- The `int` narrowing is lossless on `[0, 2^31)`
(`2147483647 = 2^31 - 1` is the largest 32-bit signed integer). -/
theorem toInt32_of_small (x : Nat) (h : (x : Int) ≤ 2147483647) :
    toInt32 (x : Int) = (x : Int) := by
  have h0 : (0 : Int) ≤ (x : Int) := Int.natCast_nonneg x
  unfold toInt32
  rw [Int.emod_eq_of_lt (by omega) (by omega)]
  ring

/-- C10: the chunk worker narrows its `ptrdiff_t` bounds to 32-bit `int`
(reduction modulo `2^32`, embedded in `chunkWorkerIndices` via `toInt32`), so
a chunk with bounds inside `[0, 2^31)` enumerates exactly the specified units,
while the single-chunk bound `M*N = 2^31` — one past the largest 32-bit signed
integer — makes the worker enumerate nothing instead of the `2^31` specified
units: the engine realizes the specified iteration space only when `M*N` does
not exceed the maximum 32-bit signed integer. -/
theorem C10_int_narrowing (first last : Nat) (hfl : first ≤ last)
    (hlast : (last : Int) ≤ 2147483647) :
    chunkWorkerIndices (first : Int) (last : Int)
        = (List.range (last - first)).map (fun k => ((first + k : Nat) : Int))
      ∧ chunkWorkerIndices 0 2147483648
        ≠ (List.range 2147483648).map (fun k => ((k : Nat) : Int)) := by
  constructor
  · have hf : (first : Int) ≤ 2147483647 := le_trans (by exact_mod_cast hfl) hlast
    unfold chunkWorkerIndices
    rw [toInt32_of_small last hlast, toInt32_of_small first hf]
    have hdiff : ((last : Int) - (first : Int)).toNat = last - first := by
      rw [← Nat.cast_sub hfl, Int.toNat_natCast]
    rw [hdiff]
    exact List.map_congr_left fun k _ => (Nat.cast_add first k).symm
  · intro hcontra
    have hl : chunkWorkerIndices 0 2147483648 = [] := by decide
    rw [hl] at hcontra
    have hlen := congrArg List.length hcontra
    simp only [List.length_nil, List.length_map, List.length_range] at hlen
    omega

/-- Witness for C10 at the in-range chunk `[2, 5)`. -/
theorem C10_int_narrowing_witness :
    (2 : Nat) ≤ 5 ∧ ((5 : Nat) : Int) ≤ 2147483647
    ∧ (chunkWorkerIndices ((2 : Nat) : Int) ((5 : Nat) : Int)
          = (List.range (5 - 2)).map (fun k => (((2 : Nat) + k : Nat) : Int))
      ∧ chunkWorkerIndices 0 2147483648
          ≠ (List.range 2147483648).map (fun k => ((k : Nat) : Int))) :=
  ⟨by decide, by decide, C10_int_narrowing 2 5 (by decide) (by decide)⟩

end OnnxGather
